import Mathlib

/-!
Verification of the structured LLM response protocol layer of the backend:
the tag-delimited response extractor (`xml_parser.py`), the two response
interpreters built on it, the MIME sniffing of the media assembler
(`gemini.py`), and the in-memory session store (`session_store.py`).

Python strings are embedded as `List Char`; Python `bytes` as `List Nat`.
`str.find` is embedded as `strFind` (index of the first occurrence of the
needle, `none` for Python's `-1`), the `in` substring operator as
`pyContains`, slicing with non-negative in-range indices as `pySlice`,
and `str.strip()` as `pyStrip` over the ASCII whitespace set.
-/

set_option maxRecDepth 20000

namespace EcommHacks

/-- The characters stripped by `str.strip()` (ASCII subset of Python's
whitespace; the responses handled by the parser are ASCII-delimited). -/
def isPySpace (c : Char) : Bool :=
  c = ' ' ∨ c = '\t' ∨ c = '\n' ∨ c = '\r' ∨ c = '\x0b' ∨ c = '\x0c'

/-- `s.strip()`: remove leading and trailing whitespace. -/
def pyStrip (s : List Char) : List Char :=
  ((s.dropWhile isPySpace).reverse.dropWhile isPySpace).reverse

/-- `hay.find(needle)`: index of the first occurrence of `needle` in `hay`,
`none` when Python returns `-1`. -/
def strFind (hay needle : List Char) : Option Nat :=
  if needle.isPrefixOf hay then some 0
  else
    match hay with
    | [] => none
    | _ :: t => (strFind t needle).map (· + 1)

/-- `hay.find(needle, start)` for `start ≤ hay.length` (the only way the
parser calls it). -/
def strFindFrom (hay needle : List Char) (start : Nat) : Option Nat :=
  (strFind (hay.drop start) needle).map (· + start)

/-- The Python substring test `needle in hay`. -/
def pyContains (hay needle : List Char) : Bool :=
  (strFind hay needle).isSome

/-- `s[i:j]` for non-negative `i`, `j` (the only slices the code takes). -/
def pySlice (s : List Char) (i j : Nat) : List Char :=
  (s.drop i).take (j - i)

/-! ### MIME sniffing (`gemini.py`, `_detect_image_mime_type`) -/

/-- The 8-byte PNG signature `b'\x89PNG\r\n\x1a\n'`. -/
def pngSignature : List Nat := [0x89, 0x50, 0x4E, 0x47, 0x0D, 0x0A, 0x1A, 0x0A]

/-- The JPEG SOI marker `b'\xff\xd8'`. -/
def jpegSoi : List Nat := [0xFF, 0xD8]

/-- The RIFF container tag `b'RIFF'`. -/
def riffTag : List Nat := [0x52, 0x49, 0x46, 0x46]

/-- The `b'WEBP'` tag expected at byte offset 8 of a RIFF container. -/
def webpTag : List Nat := [0x57, 0x45, 0x42, 0x50]

/-- The `b'GIF87a'` signature. -/
def gif87a : List Nat := [0x47, 0x49, 0x46, 0x38, 0x37, 0x61]

/-- The `b'GIF89a'` signature. -/
def gif89a : List Nat := [0x47, 0x49, 0x46, 0x38, 0x39, 0x61]

/-- `_detect_image_mime_type(data)`: sniff the actual image MIME type from
magic bytes, falling back to `image/png`.  Python slicing of `bytes`
(`data[:8]`, `data[8:12]`) never raises and yields a short slice on short
input, which list `take`/`drop` reproduce exactly. -/
def detect_image_mime_type (data : List Nat) : List Char :=
  if data.take 8 = pngSignature then "image/png".toList
  else if data.take 2 = jpegSoi then "image/jpeg".toList
  else if data.take 4 = riffTag ∧ 12 < data.length ∧ (data.drop 8).take 4 = webpTag then
    "image/webp".toList
  else if data.take 6 = gif87a ∨ data.take 6 = gif89a then "image/gif".toList
  else "image/png".toList

/-! ### Session store (`session_store.py`)

Python message dicts `{"role": ..., "content": ...}` are mutable objects
shared by reference, so the embedding gives them explicit addresses: the
store state carries a `heap` of message records (addressed by index, a new
record being allocated at the end of the heap), and each session holds a
list of addresses.  A Python list value is immutable only up to its
element references, so `ConversationSession.messages` and the list
returned by `get_or_create` are embedded as address lists; `list.copy()`
is value copying of the address list, and mutating a message dict obtained
through an alias is `heapWrite` at its address.  `datetime.now()` and
`uuid.uuid4()` are effects of the environment, passed as the `now` and
`fresh` arguments; times are integer minutes, matching the
`ttl_minutes`-granularity of the configuration. -/

/-- One message dict `{"role": role, "content": content}`. -/
structure Msg where
  role : List Char
  content : List Char
deriving DecidableEq

/-- `ConversationSession`: message history (as heap addresses) plus
bookkeeping timestamps. -/
structure ConversationSession where
  messages : List Nat
  created_at : Int
  last_accessed : Int
deriving DecidableEq

/-- The state of a `SessionStore`: the `_sessions` dict (insertion-ordered
association list), the heap of allocated message records, and `_ttl`. -/
structure StoreState where
  sessions : List (String × ConversationSession)
  heap : List Msg
  ttl : Int
deriving DecidableEq

/-- Lookup in the `_sessions` dict (keys are unique in every state the
store itself produces, so first match is dict lookup). -/
def assocLookup : List (String × ConversationSession) → String → Option ConversationSession
  | [], _ => none
  | p :: t, k => if p.1 = k then some p.2 else assocLookup t k

/-- `self._sessions[k] = v`: replace the value of an existing key in
place, otherwise append the new key. -/
def assocSet : List (String × ConversationSession) → String → ConversationSession →
    List (String × ConversationSession)
  | [], k, v => [(k, v)]
  | p :: t, k, v => if p.1 = k then (k, v) :: t else p :: assocSet t k v

/-- The fall-through of `get_or_create`: allocate a fresh empty session
under the newly generated id and return `(new_id, [])`. -/
def createNewSession (st : StoreState) (now : Int) (fresh : String) :
    String × List Nat × StoreState :=
  (fresh, [], { st with sessions := assocSet st.sessions fresh ⟨[], now, now⟩ })

/-- `get_or_create(session_id)`: for a known id (Python truthiness makes
`""` and `None` both fall through), refresh `last_accessed` and return the
id with a copy of its message list; otherwise create a fresh session. -/
def get_or_create (st : StoreState) (session_id : Option String) (now : Int)
    (fresh : String) : String × List Nat × StoreState :=
  match session_id with
  | some sid =>
    if sid = "" then createNewSession st now fresh
    else
      match assocLookup st.sessions sid with
      | some sess =>
        (sid, sess.messages,
          { st with sessions := assocSet st.sessions sid { sess with last_accessed := now } })
      | none => createNewSession st now fresh
  | none => createNewSession st now fresh

/-- `add_message(session_id, role, content)`: append one freshly allocated
message record to the named session and refresh `last_accessed`; silently
do nothing if the id is unknown. -/
def add_message (st : StoreState) (session_id : String) (role content : List Char)
    (now : Int) : StoreState :=
  match assocLookup st.sessions session_id with
  | some sess =>
    { st with
      heap := st.heap ++ [⟨role, content⟩]
      sessions := assocSet st.sessions session_id
        { sess with messages := sess.messages ++ [st.heap.length], last_accessed := now } }
  | none => st

/-- `cleanup_expired()`: drop every session idle longer than the TTL and
return how many were dropped. -/
def cleanup_expired (st : StoreState) (now : Int) : Nat × StoreState :=
  ((st.sessions.filter fun p => decide (st.ttl < now - p.2.last_accessed)).length,
    { st with sessions := st.sessions.filter fun p => ¬ st.ttl < now - p.2.last_accessed })

/-- `get_session_count()`. -/
def get_session_count (st : StoreState) : Nat :=
  st.sessions.length

/-- The module-level `session_store = SessionStore()` with the default
`ttl_minutes = 60`. -/
def defaultSessionStore : StoreState :=
  { sessions := [], heap := [], ttl := 60 }

/-- Dereference a list of message addresses against the heap (reading the
dict objects a Python message list refers to). -/
def renderHistory (st : StoreState) (refs : List Nat) : List Msg :=
  refs.map fun a => st.heap.getD a ⟨[], []⟩

/-- The observable message history of a session as stored. -/
def sessionHistory (st : StoreState) (sid : String) : Option (List Msg) :=
  (assocLookup st.sessions sid).map fun s => renderHistory st s.messages

/-- A caller-side mutation of the message dict at address `a` (e.g.
`returned_history[i]["content"] = ...` through the alias handed out by
`get_or_create`). -/
def heapWrite (st : StoreState) (a : Nat) (m : Msg) : StoreState :=
  { st with heap := st.heap.set a m }

/-- A burst of `add_message` calls on one session id, in order; models the
sequence of appends a conversation performs between reads. -/
def addAll (st : StoreState) (sid : String) (L : List (List Char × List Char × Int)) :
    StoreState :=
  L.foldl (fun s p => add_message s sid p.1 p.2.1 p.2.2) st

/-- The store backing the C5 witness: one known session with an empty
history. -/
def c5Store : StoreState :=
  { sessions := [("s", ⟨[], 0, 0⟩)], heap := [], ttl := 60 }

/-- The store backing the C6 witness: an expired session and a live one. -/
def c6Store : StoreState :=
  { sessions := [("old", ⟨[], 0, 0⟩), ("new", ⟨[], 90, 90⟩)], heap := [], ttl := 60 }

/-- The store backing the C4 theorems: one session holding one message. -/
def c4Store : StoreState :=
  { sessions := [("sid", ⟨[0], 0, 1⟩)], heap := [⟨"user".toList, "hi".toList⟩], ttl := 60 }

/-- A concrete one-session store used to witness C7. -/
def c7Store : StoreState :=
  { sessions := [("a", ⟨[0], 0, 0⟩)], heap := [⟨"user".toList, "hi".toList⟩], ttl := 60 }

/-! ### Tag-delimited extraction (`xml_parser.py`) -/

/-- The bounded diagnostic preview every parser error message embeds:
`response_preview[:200] + "..." if len(response_preview) > 200 else
response_preview`. -/
def boundedPreview (r : List Char) : List Char :=
  if 200 < r.length then r.take 200 ++ "...".toList else r

/-- `MissingTagError`: the exception object stores the tag, the (full)
`response_preview` attribute, and the rendered exception message. -/
structure MissingTagError where
  tag : List Char
  response_preview : List Char
  message : List Char
deriving DecidableEq

/-- `TruncatedResponseError`, with the same attributes. -/
structure TruncatedResponseError where
  tag : List Char
  response_preview : List Char
  message : List Char
deriving DecidableEq

/-- `MissingTagError(tag, response_preview)`: `self.response_preview`
keeps the argument whole; only the message embeds the bounded preview. -/
def mkMissingTagError (tag response : List Char) : MissingTagError :=
  { tag := tag
    response_preview := response
    message := "No <".toList ++ tag ++ "> tag found in response. Response preview: ".toList
      ++ boundedPreview response }

/-- `TruncatedResponseError(tag, response_preview)`. -/
def mkTruncatedResponseError (tag response : List Char) : TruncatedResponseError :=
  { tag := tag
    response_preview := response
    message := "Response appears truncated - found <".toList ++ tag
      ++ "> but no </".toList ++ tag ++ ">. Response preview: ".toList
      ++ boundedPreview response }

/-- The failures the parsing layer raises: the two typed `XmlParseError`
subclasses the extractor uses, and the `ValueError`s of the interpreters
(carrying only their rendered message). -/
inductive PyErr where
  | missingTag (e : MissingTagError)
  | truncated (e : TruncatedResponseError)
  | valueError (message : List Char)
deriving DecidableEq

/-- The literal opening delimiter `f"<{tag}>"`. -/
def openTagOf (tag : List Char) : List Char :=
  '<' :: (tag ++ ['>'])

/-- The literal closing delimiter `f"</{tag}>"`. -/
def closeTagOf (tag : List Char) : List Char :=
  '<' :: '/' :: (tag ++ ['>'])

/-- `_extract_tag_bounds(response, tag)`: find the first opening
delimiter (else `MissingTagError`), then the first closing delimiter at or
after the opening delimiter's end (else `TruncatedResponseError`), and
return `(open_start, open_end, close_start, close_end)`. -/
def extract_tag_bounds (response tag : List Char) : Except PyErr (Nat × Nat × Nat × Nat) :=
  match strFind response (openTagOf tag) with
  | none => .error (.missingTag (mkMissingTagError tag response))
  | some open_start =>
    match strFindFrom response (closeTagOf tag) (open_start + (openTagOf tag).length) with
    | none => .error (.truncated (mkTruncatedResponseError tag response))
    | some close_start =>
      .ok (open_start, open_start + (openTagOf tag).length, close_start,
        close_start + (closeTagOf tag).length)

/-- `parse_xml_content(response, tag)`: the text strictly between the end
of the first opening delimiter and the first closing delimiter after it,
stripped of leading/trailing whitespace. -/
def parse_xml_content (response tag : List Char) : Except PyErr (List Char) :=
  match extract_tag_bounds response tag with
  | .error e => .error e
  | .ok (_, open_end, close_start, _) => .ok (pyStrip (pySlice response open_end close_start))

/-- The 210-character response used to refute C8 as stated. -/
def c8LongResponse : List Char := List.replicate 210 'a'

/-! ### JSON values and `json.loads`

The interpreters decode tag bodies with `json.loads`.  JSON values are
embedded as a tagged union; numbers keep their source lexeme (the
interpreters never compute with them, they only copy them through).
`json_loads` models Python's decoder on the JSON subset the protocol
uses: the four literals, strings with the standard single-character
escapes and `\uXXXX` (surrogate pairs are out of scope), arrays and
objects, with the four JSON whitespace characters; `NaN`/`Infinity`
extensions are out of scope.  A failed decode stands for
`json.JSONDecodeError`. -/

inductive Json where
  | null
  | bool (b : Bool)
  | num (lexeme : List Char)
  | str (s : List Char)
  | arr (elems : List Json)
  | obj (entries : List (List Char × Json))

/-- The whitespace `json.loads` skips between tokens. -/
def jsonSkipWs (s : List Char) : List Char :=
  s.dropWhile fun c => c = ' ' ∨ c = '\t' ∨ c = '\n' ∨ c = '\r'

/-- Hex digit value, for `\uXXXX` escapes. -/
def hexVal (c : Char) : Option Nat :=
  if '0' ≤ c ∧ c ≤ '9' then some (c.toNat - '0'.toNat)
  else if 'a' ≤ c ∧ c ≤ 'f' then some (c.toNat - 'a'.toNat + 10)
  else if 'A' ≤ c ∧ c ≤ 'F' then some (c.toNat - 'A'.toNat + 10)
  else none

/-- Parse the body of a JSON string after its opening quote; returns the
decoded content and the input after the closing quote. -/
def parseJsonString : Nat → List Char → Option (List Char × List Char)
  | 0, _ => none
  | _ + 1, [] => none
  | fuel + 1, c :: rest =>
    if c = '\"' then some ([], rest)
    else if c = '\\' then
      match rest with
      | [] => none
      | e :: rest2 =>
        if e = '\"' then (parseJsonString fuel rest2).map fun p => ('\"' :: p.1, p.2)
        else if e = '\\' then (parseJsonString fuel rest2).map fun p => ('\\' :: p.1, p.2)
        else if e = '/' then (parseJsonString fuel rest2).map fun p => ('/' :: p.1, p.2)
        else if e = 'b' then (parseJsonString fuel rest2).map fun p => ('\x08' :: p.1, p.2)
        else if e = 'f' then (parseJsonString fuel rest2).map fun p => ('\x0c' :: p.1, p.2)
        else if e = 'n' then (parseJsonString fuel rest2).map fun p => ('\n' :: p.1, p.2)
        else if e = 'r' then (parseJsonString fuel rest2).map fun p => ('\r' :: p.1, p.2)
        else if e = 't' then (parseJsonString fuel rest2).map fun p => ('\t' :: p.1, p.2)
        else if e = 'u' then
          match rest2 with
          | h1 :: h2 :: h3 :: h4 :: rest3 =>
            match hexVal h1, hexVal h2, hexVal h3, hexVal h4 with
            | some v1, some v2, some v3, some v4 =>
              (parseJsonString fuel rest3).map fun p =>
                (Char.ofNat (((v1 * 16 + v2) * 16 + v3) * 16 + v4) :: p.1, p.2)
            | _, _, _, _ => none
          | _ => none
        else none
    else if c.toNat < 32 then none
    else (parseJsonString fuel rest).map fun p => (c :: p.1, p.2)

/-- Longest digit run and the remainder. -/
def spanDigits (s : List Char) : List Char × List Char :=
  (s.takeWhile Char.isDigit, s.dropWhile Char.isDigit)

/-- Lex one JSON number (`-? int frac? exp?`, no leading zeros); returns
the lexeme and the remainder. -/
def parseJsonNumber (s : List Char) : Option (List Char × List Char) :=
  let signed : List Char × List Char :=
    match s with
    | '-' :: t => (['-'], t)
    | _ => ([], s)
  let ip := spanDigits signed.2
  if ip.1 = [] then none
  else if 1 < ip.1.length ∧ ip.1.head? = some '0' then none
  else
    let fp : Option (List Char × List Char) :=
      match ip.2 with
      | '.' :: t =>
        let ds := spanDigits t
        if ds.1 = [] then none else some ('.' :: ds.1, ds.2)
      | _ => some ([], ip.2)
    match fp with
    | none => none
    | some fpr =>
      let ep : Option (List Char × List Char) :=
        match fpr.2 with
        | e :: t =>
          if e = 'e' ∨ e = 'E' then
            let sg : List Char × List Char :=
              match t with
              | c :: t2 => if c = '+' ∨ c = '-' then ([c], t2) else ([], t)
              | [] => ([], t)
            let ds := spanDigits sg.2
            if ds.1 = [] then none else some (e :: (sg.1 ++ ds.1), ds.2)
          else some ([], fpr.2)
        | [] => some ([], fpr.2)
      match ep with
      | none => none
      | some epr => some (signed.1 ++ ip.1 ++ fpr.1 ++ epr.1, epr.2)

mutual

/-- Parse one JSON value (after skipping leading whitespace). -/
def parseJsonValue : Nat → List Char → Option (Json × List Char)
  | 0, _ => none
  | fuel + 1, s =>
    match jsonSkipWs s with
    | [] => none
    | c :: rest =>
      if c = 'n' then
        match c :: rest with
        | 'n' :: 'u' :: 'l' :: 'l' :: r => some (.null, r)
        | _ => none
      else if c = 't' then
        match c :: rest with
        | 't' :: 'r' :: 'u' :: 'e' :: r => some (.bool true, r)
        | _ => none
      else if c = 'f' then
        match c :: rest with
        | 'f' :: 'a' :: 'l' :: 's' :: 'e' :: r => some (.bool false, r)
        | _ => none
      else if c = '\"' then
        (parseJsonString fuel rest).map fun p => (.str p.1, p.2)
      else if c = '[' then
        match jsonSkipWs rest with
        | ']' :: r => some (.arr [], r)
        | r2 => (parseJsonItems fuel r2).map fun p => (.arr p.1, p.2)
      else if c = '\x7b' then
        match jsonSkipWs rest with
        | '\x7d' :: r => some (.obj [], r)
        | r2 => (parseJsonMembers fuel r2).map fun p => (.obj p.1, p.2)
      else
        (parseJsonNumber (c :: rest)).map fun p => (.num p.1, p.2)

/-- Parse the non-empty element list of a JSON array, up to and including
the closing bracket. -/
def parseJsonItems : Nat → List Char → Option (List Json × List Char)
  | 0, _ => none
  | fuel + 1, s =>
    match parseJsonValue fuel s with
    | none => none
    | some (v, r) =>
      match jsonSkipWs r with
      | ',' :: r2 => (parseJsonItems fuel r2).map fun p => (v :: p.1, p.2)
      | ']' :: r2 => some ([v], r2)
      | _ => none

/-- Parse the non-empty member list of a JSON object, up to and including
the closing brace. -/
def parseJsonMembers : Nat → List Char → Option (List (List Char × Json) × List Char)
  | 0, _ => none
  | fuel + 1, s =>
    match jsonSkipWs s with
    | '\"' :: r =>
      match parseJsonString r.length r with
      | none => none
      | some (k, r2) =>
        match jsonSkipWs r2 with
        | ':' :: r3 =>
          match parseJsonValue fuel r3 with
          | none => none
          | some (v, r4) =>
            match jsonSkipWs r4 with
            | ',' :: r5 => (parseJsonMembers fuel r5).map fun p => ((k, v) :: p.1, p.2)
            | '\x7d' :: r5 => some ([(k, v)], r5)
            | _ => none
        | _ => none
    | _ => none

end

/-- `json.loads(s)`: decode one JSON document with nothing but whitespace
around it. -/
def json_loads (s : List Char) : Option Json :=
  match parseJsonValue (2 * s.length + 4) s with
  | some (v, r) => if jsonSkipWs r = [] then some v else none
  | none => none

/-! ### Response interpreters (`parse_onboard_response`,
`parse_style_response`)

Both return the Python dict the source builds, embedded as an
insertion-ordered association list `List (List Char × Json)` with the
`"type"` marker first. -/

/-- Python dict read `d[k]` semantics over raw JSON object entries
(`json.loads` keeps the last of duplicate keys). -/
def dictGet (kvs : List (List Char × Json)) (key : List Char) : Option Json :=
  kvs.foldl (fun acc p => if p.1 = key then some p.2 else acc) none

/-- The Python membership test `key in data` on a decoded JSON value:
key lookup on dicts, substring on strings, element equality on lists, and
`TypeError` on the non-iterable values. -/
def pyInJson (key : List Char) (v : Json) : Except PyErr Bool :=
  match v with
  | .obj kvs => .ok (kvs.any fun p => decide (p.1 = key))
  | .str s => .ok (pyContains s key)
  | .arr xs => .ok (xs.any fun x => match x with | .str s => decide (s = key) | _ => false)
  | _ => .error (.valueError "TypeError: argument of type is not iterable".toList)

/-- The Python subscript `data[key]` on a decoded JSON value: the stored
value on dicts (the branch the interpreter reaches only after a
membership test), `TypeError` otherwise. -/
def pyGetJson (key : List Char) (v : Json) : Except PyErr Json :=
  match v with
  | .obj kvs =>
    match dictGet kvs key with
    | some x => .ok x
    | none => .error (.valueError "KeyError".toList)
  | _ => .error (.valueError "TypeError: indices must be integers".toList)

/-- One `if src in data: result[dst] = data[src]` step of the style
flattening. -/
def appendIfKey (acc : List (List Char × Json)) (src dst : List Char) (data : Json) :
    Except PyErr (List (List Char × Json)) :=
  match pyInJson src data with
  | .error e => .error e
  | .ok true =>
    match pyGetJson src data with
    | .error e => .error e
    | .ok v => .ok (acc ++ [(dst, v)])
  | .ok false => .ok acc

/-- The flattening of a decoded `<style_update>` payload: start from
`{"type": "update"}` and lift the four known keys in source order. -/
def styleLift (data : Json) : Except PyErr (List (List Char × Json)) :=
  match appendIfKey [("type".toList, Json.str "update".toList)]
      "cardTheme".toList "card_theme".toList data with
  | .error e => .error e
  | .ok r1 =>
    match appendIfKey r1 "canvasTheme".toList "canvas_theme".toList data with
    | .error e => .error e
    | .ok r2 =>
      match appendIfKey r2 "physics".toList "physics".toList data with
      | .error e => .error e
      | .ok r3 => appendIfKey r3 "explanation".toList "explanation".toList data

/-- Stand-in for the rendered text of a `json.JSONDecodeError`. -/
def jsonDecodeErrorMsg : List Char := "Expecting value".toList

/-- `parse_onboard_response(response)`: question first, else
`canvas_config` decoded as JSON, else `ValueError` with a bounded
preview. -/
def parse_onboard_response (response : List Char) :
    Except PyErr (List (List Char × Json)) :=
  if pyContains response (openTagOf "question".toList) then
    match parse_xml_content response "question".toList with
    | .error e => .error e
    | .ok content =>
      .ok [("type".toList, Json.str "question".toList),
        ("content".toList, Json.str content)]
  else if pyContains response (openTagOf "canvas_config".toList) then
    match parse_xml_content response "canvas_config".toList with
    | .error e => .error e
    | .ok config_json =>
      match json_loads config_json with
      | some v => .ok [("type".toList, Json.str "config".toList), ("content".toList, v)]
      | none =>
        .error (.valueError ("Invalid JSON in <canvas_config>: ".toList ++ jsonDecodeErrorMsg))
  else
    .error (.valueError
      ("Response must contain <question> or <canvas_config>. Response preview: ".toList
        ++ boundedPreview response))

/-- `parse_style_response(response)`: question first, else `style_update`
decoded as JSON and flattened, else `ValueError` with a bounded
preview. -/
def parse_style_response (response : List Char) :
    Except PyErr (List (List Char × Json)) :=
  if pyContains response (openTagOf "question".toList) then
    match parse_xml_content response "question".toList with
    | .error e => .error e
    | .ok content =>
      .ok [("type".toList, Json.str "question".toList),
        ("explanation".toList, Json.str content)]
  else if pyContains response (openTagOf "style_update".toList) then
    match parse_xml_content response "style_update".toList with
    | .error e => .error e
    | .ok style_json =>
      match json_loads style_json with
      | some data => styleLift data
      | none =>
        .error (.valueError ("Invalid JSON in <style_update>: ".toList ++ jsonDecodeErrorMsg))
  else
    .error (.valueError
      ("Response must contain <style_update> or <question>. Response preview: ".toList
        ++ boundedPreview response))

/-- Whether `response` holds a complete `<tag>...</tag>` block: the
opening delimiter occurs, and a closing delimiter occurs at or after its
end. -/
def hasCompleteTag (response tag : List Char) : Bool :=
  match strFind response (openTagOf tag) with
  | none => false
  | some i => (strFindFrom response (closeTagOf tag) (i + (openTagOf tag).length)).isSome

/-- The dict the style flattening produces from a decoded JSON object. -/
def styleOut (kvs : List (List Char × Json)) : List (List Char × Json) :=
  [("type".toList, Json.str "update".toList)]
    ++ (match dictGet kvs "cardTheme".toList with
        | some v => [("card_theme".toList, v)]
        | none => [])
    ++ (match dictGet kvs "canvasTheme".toList with
        | some v => [("canvas_theme".toList, v)]
        | none => [])
    ++ (match dictGet kvs "physics".toList with
        | some v => [("physics".toList, v)]
        | none => [])
    ++ (match dictGet kvs "explanation".toList with
        | some v => [("explanation".toList, v)]
        | none => [])

/-- A response holding both a complete question block and a complete,
JSON-decodable `style_update` block. -/
def c9Resp : List Char :=
  "<question>q</question><style_update>\x7b\"physics\": \x7b\"bounce\": 0.8\x7d\x7d</style_update>".toList

/-- The `style_update` body inside `c9Resp`. -/
def c9Body : List Char :=
  "\x7b\"physics\": \x7b\"bounce\": 0.8\x7d\x7d".toList

/-- The spec's end-to-end scenario B response. -/
def c9WitnessResp : List Char :=
  "<style_update>\x7b\"physics\": \x7b\"bounce\": 0.8\x7d, \"explanation\": \"bouncier\"\x7d</style_update>".toList

/-- The body of `c9WitnessResp`. -/
def c9WitnessBody : List Char :=
  "\x7b\"physics\": \x7b\"bounce\": 0.8\x7d, \"explanation\": \"bouncier\"\x7d".toList

/-- The entries `json.loads` yields for `c9WitnessBody`. -/
def c9WitnessKvs : List (List Char × Json) :=
  [("physics".toList, Json.obj [("bounce".toList, Json.num "0.8".toList)]),
    ("explanation".toList, Json.str "bouncier".toList)]

theorem take_eq_cons_split {α : Type} {d : List α} {a : α} {l : List α} {n : Nat}
    (h : d.take (n + 1) = a :: l) : ∃ t, d = a :: t ∧ t.take n = l := by
  cases d with
  | nil => simp at h
  | cons x t =>
    rw [List.take_succ_cons, List.cons.injEq] at h
    exact ⟨t, by rw [h.1], h.2⟩

/-- Claim C3: MIME sniffing is a total deterministic function on byte
sequences; the PNG, JPEG, RIFF/WEBP and GIF87a/GIF89a magic-byte rules each
yield their label, every unrecognized sequence (including empty or short
input) yields the `image/png` default, and every output is one of the four
labels. -/
theorem claim_C3_mime_sniffing :
    (∀ d : List Nat, d.take 8 = pngSignature → detect_image_mime_type d = "image/png".toList)
    ∧ (∀ d : List Nat, d.take 2 = jpegSoi → detect_image_mime_type d = "image/jpeg".toList)
    ∧ (∀ d : List Nat, d.take 4 = riffTag → 12 < d.length → (d.drop 8).take 4 = webpTag →
        detect_image_mime_type d = "image/webp".toList)
    ∧ (∀ d : List Nat, d.take 6 = gif87a ∨ d.take 6 = gif89a →
        detect_image_mime_type d = "image/gif".toList)
    ∧ (∀ d : List Nat, d.take 8 ≠ pngSignature → d.take 2 ≠ jpegSoi →
        ¬(d.take 4 = riffTag ∧ 12 < d.length ∧ (d.drop 8).take 4 = webpTag) →
        d.take 6 ≠ gif87a → d.take 6 ≠ gif89a →
        detect_image_mime_type d = "image/png".toList)
    ∧ (∀ d : List Nat, detect_image_mime_type d = "image/png".toList
        ∨ detect_image_mime_type d = "image/jpeg".toList
        ∨ detect_image_mime_type d = "image/webp".toList
        ∨ detect_image_mime_type d = "image/gif".toList) := by
  refine ⟨?_, ?_, ?_, ?_, ?_, ?_⟩
  · intro d h
    rw [detect_image_mime_type, if_pos h]
  · intro d h
    obtain ⟨t, rfl, -⟩ := take_eq_cons_split (n := 1) h
    have h2 : t.take 1 = [0xD8] := by
      have := congrArg (List.drop 1) h
      simpa [jpegSoi, List.drop_take] using this
    obtain ⟨t2, rfl, -⟩ := take_eq_cons_split (n := 0) h2
    simp [detect_image_mime_type, pngSignature, jpegSoi]
  · intro d h1 h2 h3
    obtain ⟨ta, rfl, ha⟩ := take_eq_cons_split (n := 3) h1
    obtain ⟨tb, rfl, hb⟩ := take_eq_cons_split (n := 2) ha
    obtain ⟨tc, rfl, hc⟩ := take_eq_cons_split (n := 1) hb
    obtain ⟨td, rfl, -⟩ := take_eq_cons_split (n := 0) hc
    rw [detect_image_mime_type, if_neg, if_neg, if_pos]
    · exact ⟨rfl, h2, h3⟩
    · simp [jpegSoi]
    · simp [pngSignature]
  · intro d h
    have hne8 : d.take 8 ≠ pngSignature := by
      rcases h with h | h <;>
      · obtain ⟨t, rfl, -⟩ := take_eq_cons_split (n := 5) h
        simp [pngSignature]
    have hne2 : d.take 2 ≠ jpegSoi := by
      rcases h with h | h <;>
      · obtain ⟨t, rfl, -⟩ := take_eq_cons_split (n := 5) h
        simp [jpegSoi]
    have hner : d.take 4 ≠ riffTag := by
      rcases h with h | h <;>
      · obtain ⟨t, rfl, -⟩ := take_eq_cons_split (n := 5) h
        simp [riffTag]
    rw [detect_image_mime_type, if_neg hne8, if_neg, if_neg, if_pos h]
    · intro hc
      exact hner hc.1
    · exact hne2
  · intro d h1 h2 h3 h4 h5
    rw [detect_image_mime_type, if_neg h1, if_neg h2, if_neg h3, if_neg]
    intro hc
    rcases hc with hc | hc
    · exact h4 hc
    · exact h5 hc
  · intro d
    rw [detect_image_mime_type]
    split
    · exact Or.inl rfl
    split
    · exact Or.inr (Or.inl rfl)
    split
    · exact Or.inr (Or.inr (Or.inl rfl))
    split
    · exact Or.inr (Or.inr (Or.inr rfl))
    · exact Or.inl rfl

/-- Witness for C3: the rules evaluated on concrete byte sequences — a PNG
header, a JPEG header, a WEBP file header, a GIF header, and an
unrecognized sequence. -/
theorem claim_C3_mime_sniffing_witness :
    detect_image_mime_type [0x89, 0x50, 0x4E, 0x47, 0x0D, 0x0A, 0x1A, 0x0A, 1, 2]
        = "image/png".toList
    ∧ detect_image_mime_type [0xFF, 0xD8, 0xFF, 0xE0] = "image/jpeg".toList
    ∧ detect_image_mime_type
        [0x52, 0x49, 0x46, 0x46, 0, 0, 0, 0, 0x57, 0x45, 0x42, 0x50, 0, 0]
        = "image/webp".toList
    ∧ detect_image_mime_type [0x47, 0x49, 0x46, 0x38, 0x39, 0x61, 0] = "image/gif".toList
    ∧ detect_image_mime_type [1, 2, 3] = "image/png".toList
    ∧ detect_image_mime_type [] = "image/png".toList := by
  refine ⟨?_, ?_, ?_, ?_, ?_, ?_⟩
  · exact claim_C3_mime_sniffing.1 _ (by decide)
  · exact claim_C3_mime_sniffing.2.1 _ (by decide)
  · exact claim_C3_mime_sniffing.2.2.1 _ (by decide) (by decide) (by decide)
  · exact claim_C3_mime_sniffing.2.2.2.1 _ (Or.inr (by decide))
  · exact claim_C3_mime_sniffing.2.2.2.2.1 _ (by decide) (by decide) (by decide)
      (by decide) (by decide)
  · exact claim_C3_mime_sniffing.2.2.2.2.1 _ (by decide) (by decide) (by decide)
      (by decide) (by decide)

/-- Claim C7: `add_message` on an id absent from the store is a silent
no-op: the whole store state (sessions and heap alike) is returned
unchanged, and no error is signalled. -/
theorem claim_C7_add_message_unknown_noop (st : StoreState) (sid : String)
    (role content : List Char) (now : Int)
    (h : assocLookup st.sessions sid = none) :
    add_message st sid role content now = st := by
  rw [add_message, h]

theorem assocLookup_assocSet_self (l : List (String × ConversationSession)) (k : String)
    (v : ConversationSession) : assocLookup (assocSet l k v) k = some v := by
  induction l with
  | nil => simp [assocSet, assocLookup]
  | cons p t ih =>
    rw [assocSet]
    by_cases h : p.1 = k
    · rw [if_pos h, assocLookup, if_pos rfl]
    · rw [if_neg h, assocLookup, if_neg h, ih]

theorem assocLookup_assocSet_ne (l : List (String × ConversationSession)) (k k' : String)
    (v : ConversationSession) (h : k' ≠ k) :
    assocLookup (assocSet l k v) k' = assocLookup l k' := by
  induction l with
  | nil => simp [assocSet, assocLookup, Ne.symm h]
  | cons p t ih =>
    rw [assocSet]
    by_cases hp : p.1 = k
    · rw [if_pos hp, assocLookup, assocLookup,
        if_neg (show ¬((k, v).1 = k') from Ne.symm h),
        if_neg (show ¬(p.1 = k') from fun he => h (hp.symm.trans he).symm)]
    · rw [if_neg hp, assocLookup, assocLookup, ih]

/-- Dereferencing is unaffected by allocating a fresh record at the end of
the heap, as long as every address read is already allocated. -/
theorem renderHistory_heap_append (st : StoreState) (m : Msg) (refs : List Nat)
    (hv : ∀ r ∈ refs, r < st.heap.length) :
    renderHistory { st with heap := st.heap ++ [m] } refs = renderHistory st refs := by
  rw [renderHistory, renderHistory]
  apply List.map_congr_left
  intro a ha
  simp only [List.getD_eq_getElem?_getD]
  rw [List.getElem?_append_left (hv a ha)]

/-- The fresh record allocated by `add_message` dereferences to itself. -/
theorem getD_concat_length (h : List Msg) (m d : Msg) : (h ++ [m]).getD h.length d = m := by
  rw [List.getD_eq_getElem?_getD, List.getElem?_concat_length]
  rfl

/-- `renderHistory` reads only the heap. -/
theorem renderHistory_eq_of_heap_eq (st1 st2 : StoreState) (refs : List Nat)
    (h : st1.heap = st2.heap) : renderHistory st1 refs = renderHistory st2 refs := by
  rw [renderHistory, renderHistory, h]

theorem addAll_spec (L : List (List Char × List Char × Int)) (st : StoreState)
    (sid : String) (sess : ConversationSession)
    (h : assocLookup st.sessions sid = some sess)
    (hv : ∀ r ∈ sess.messages, r < st.heap.length) :
    ∃ sess', assocLookup (addAll st sid L).sessions sid = some sess'
      ∧ (∀ r ∈ sess'.messages, r < (addAll st sid L).heap.length)
      ∧ renderHistory (addAll st sid L) sess'.messages
          = renderHistory st sess.messages ++ L.map (fun p => Msg.mk p.1 p.2.1) := by
  induction L generalizing st sess with
  | nil => exact ⟨sess, h, hv, by simp [addAll]⟩
  | cons p L ih =>
    have hstep : add_message st sid p.1 p.2.1 p.2.2
        = { st with heap := st.heap ++ [⟨p.1, p.2.1⟩],
                    sessions := assocSet st.sessions sid
                      { sess with messages := sess.messages ++ [st.heap.length],
                                  last_accessed := p.2.2 } } := by
      rw [add_message, h]
    have haddall : addAll st sid (p :: L) = addAll (add_message st sid p.1 p.2.1 p.2.2) sid L := by
      rw [addAll, List.foldl_cons, addAll]
    have hlook2 : assocLookup (add_message st sid p.1 p.2.1 p.2.2).sessions sid
        = some { sess with messages := sess.messages ++ [st.heap.length],
                           last_accessed := p.2.2 } := by
      rw [hstep]
      exact assocLookup_assocSet_self _ _ _
    have hv2 : ∀ r ∈ sess.messages ++ [st.heap.length],
        r < (add_message st sid p.1 p.2.1 p.2.2).heap.length := by
      rw [hstep]
      intro r hr
      show r < (st.heap ++ [(⟨p.1, p.2.1⟩ : Msg)]).length
      rw [List.length_append]
      rcases List.mem_append.mp hr with hr | hr
      · have := hv r hr
        omega
      · rw [List.mem_singleton.mp hr]
        simp
    obtain ⟨sess', h1, h2, h3⟩ := ih (add_message st sid p.1 p.2.1 p.2.2)
      { sess with messages := sess.messages ++ [st.heap.length], last_accessed := p.2.2 }
      hlook2 hv2
    refine ⟨sess', by rw [haddall]; exact h1, by rw [haddall]; exact h2, ?_⟩
    rw [haddall, h3]
    have hcongr : renderHistory (add_message st sid p.1 p.2.1 p.2.2)
        (sess.messages ++ [st.heap.length])
        = renderHistory { st with heap := st.heap ++ [⟨p.1, p.2.1⟩] }
            (sess.messages ++ [st.heap.length]) := by
      apply renderHistory_eq_of_heap_eq
      rw [hstep]
    have hsplit : renderHistory { st with heap := st.heap ++ [⟨p.1, p.2.1⟩] }
        (sess.messages ++ [st.heap.length])
        = renderHistory { st with heap := st.heap ++ [⟨p.1, p.2.1⟩] } sess.messages
          ++ renderHistory { st with heap := st.heap ++ [⟨p.1, p.2.1⟩] } [st.heap.length] := by
      rw [renderHistory, renderHistory, renderHistory, List.map_append]
    have hone : renderHistory { st with heap := st.heap ++ [⟨p.1, p.2.1⟩] } [st.heap.length]
        = [(⟨p.1, p.2.1⟩ : Msg)] := by
      show [(st.heap ++ [(⟨p.1, p.2.1⟩ : Msg)]).getD st.heap.length ⟨[], []⟩] = _
      rw [getD_concat_length]
    show renderHistory (add_message st sid p.1 p.2.1 p.2.2)
        (sess.messages ++ [st.heap.length]) ++ List.map (fun q => Msg.mk q.1 q.2.1) L
      = renderHistory st sess.messages ++ List.map (fun q => Msg.mk q.1 q.2.1) (p :: L)
    rw [hcongr, hsplit, hone, renderHistory_heap_append st ⟨p.1, p.2.1⟩ sess.messages hv,
      List.map_cons, List.append_assoc, List.singleton_append]

/-- Claim C5: per-session history is exactly append order.  Starting from
any store in which `sid` names a session, a sequence of `add_message`
calls followed by `get_or_create(sid)` returns `sid` itself together with
the prior history extended by exactly the appended messages, in append
order (for a session whose history was empty, exactly the appended
messages). -/
theorem claim_C5_history_is_append_order (st : StoreState) (sid : String)
    (sess : ConversationSession) (L : List (List Char × List Char × Int))
    (now2 : Int) (fresh2 : String) (hsid : sid ≠ "")
    (h : assocLookup st.sessions sid = some sess)
    (hv : ∀ r ∈ sess.messages, r < st.heap.length) :
    (get_or_create (addAll st sid L) (some sid) now2 fresh2).1 = sid
    ∧ renderHistory (get_or_create (addAll st sid L) (some sid) now2 fresh2).2.2
        (get_or_create (addAll st sid L) (some sid) now2 fresh2).2.1
      = renderHistory st sess.messages ++ L.map (fun p => Msg.mk p.1 p.2.1) := by
  obtain ⟨sess', h1, _, h3⟩ := addAll_spec L st sid sess h hv
  rw [get_or_create, if_neg hsid, h1]
  exact ⟨rfl, h3⟩

/-- Witness for C5: after `add_message("s", "user", "hi")` on a fresh
session, `get_or_create("s")` returns exactly that one message, in first
position. -/
theorem claim_C5_history_is_append_order_witness :
    (get_or_create (addAll c5Store "s" [("user".toList, "hi".toList, 1)])
        (some "s") 2 "t").1 = "s"
    ∧ renderHistory (get_or_create (addAll c5Store "s" [("user".toList, "hi".toList, 1)])
          (some "s") 2 "t").2.2
        (get_or_create (addAll c5Store "s" [("user".toList, "hi".toList, 1)])
          (some "s") 2 "t").2.1
      = [⟨"user".toList, "hi".toList⟩] := by
  have h := claim_C5_history_is_append_order c5Store "s" ⟨[], 0, 0⟩
    [("user".toList, "hi".toList, 1)] 2 "t" (by decide) (by decide)
    (by intro r hr; simp at hr)
  exact ⟨h.1, by rw [h.2]; rfl⟩

theorem assocLookup_eq_none_of_not_mem (l : List (String × ConversationSession)) (k : String)
    (h : k ∉ l.map Prod.fst) : assocLookup l k = none := by
  induction l with
  | nil => rfl
  | cons p t ih =>
    rw [List.map_cons] at h
    rw [assocLookup, if_neg, ih (fun hc => h (List.mem_cons_of_mem _ hc))]
    intro hc
    exact h (List.mem_cons.mpr (Or.inl hc.symm))

/-- Dict lookup through `filter`, for unique keys: the entry survives iff
its own value passes the predicate. -/
theorem assocLookup_filter (l : List (String × ConversationSession))
    (q : String × ConversationSession → Bool) (k : String)
    (hnd : (l.map Prod.fst).Nodup) :
    assocLookup (l.filter q) k
      = match assocLookup l k with
        | some v => if q (k, v) then some v else none
        | none => none := by
  induction l with
  | nil => rfl
  | cons p t ih =>
    rw [List.map_cons, List.nodup_cons] at hnd
    by_cases hk : p.1 = k
    · by_cases hq : q p
      · rw [List.filter_cons_of_pos hq, assocLookup, if_pos hk, assocLookup, if_pos hk]
        show some p.2 = if q (k, p.2) = true then some p.2 else none
        rw [if_pos (by rw [← hk, Prod.mk.eta]; exact hq)]
      · have hknot : k ∉ t.map Prod.fst := hk ▸ hnd.1
        have hkf : k ∉ (t.filter q).map Prod.fst := by
          intro hc
          rcases List.mem_map.mp hc with ⟨e, he, hek⟩
          exact hknot (List.mem_map.mpr ⟨e, List.mem_of_mem_filter he, hek⟩)
        rw [List.filter_cons_of_neg hq, assocLookup_eq_none_of_not_mem _ _ hkf,
          assocLookup, if_pos hk]
        show none = if q (k, p.2) = true then some p.2 else none
        rw [if_neg (fun hc => hq (by rw [← hk, Prod.mk.eta] at hc; exact hc))]
    · by_cases hq : q p
      · rw [List.filter_cons_of_pos hq, assocLookup, if_neg hk, assocLookup, if_neg hk,
          ih hnd.2]
      · rw [List.filter_cons_of_neg hq, assocLookup, if_neg hk, ih hnd.2]

/-- Claim C6: `cleanup_expired` removes exactly the sessions whose idle
time `now - last_accessed` strictly exceeds the TTL, leaves every other
session (and the heap and TTL, the default TTL being 60 minutes)
unchanged, returns the number removed, and a later `get_or_create` on a
removed id allocates a fresh empty session under the newly generated id
instead of resurrecting the old one. -/
theorem claim_C6_cleanup_expired (st : StoreState) (now : Int)
    (hnd : (st.sessions.map Prod.fst).Nodup) :
    (∀ sid sess, assocLookup st.sessions sid = some sess →
        assocLookup (cleanup_expired st now).2.sessions sid
          = if st.ttl < now - sess.last_accessed then none else some sess)
    ∧ (∀ sid, assocLookup st.sessions sid = none →
        assocLookup (cleanup_expired st now).2.sessions sid = none)
    ∧ (cleanup_expired st now).1 + (cleanup_expired st now).2.sessions.length
        = st.sessions.length
    ∧ (cleanup_expired st now).2.heap = st.heap
    ∧ (cleanup_expired st now).2.ttl = st.ttl
    ∧ defaultSessionStore.ttl = 60
    ∧ (∀ sid sess now2 fresh, sid ≠ "" → fresh ≠ sid →
        assocLookup st.sessions sid = some sess →
        st.ttl < now - sess.last_accessed →
        (get_or_create (cleanup_expired st now).2 (some sid) now2 fresh).1 = fresh
        ∧ (get_or_create (cleanup_expired st now).2 (some sid) now2 fresh).2.1 = []
        ∧ assocLookup
            (get_or_create (cleanup_expired st now).2 (some sid) now2 fresh).2.2.sessions
            fresh = some ⟨[], now2, now2⟩
        ∧ assocLookup
            (get_or_create (cleanup_expired st now).2 (some sid) now2 fresh).2.2.sessions
            sid = none) := by
  have hcl : (cleanup_expired st now).2.sessions
      = st.sessions.filter (fun p => ¬ st.ttl < now - p.2.last_accessed) := rfl
  have hnone : ∀ sid sess, assocLookup st.sessions sid = some sess →
      st.ttl < now - sess.last_accessed →
      assocLookup (cleanup_expired st now).2.sessions sid = none := by
    intro sid sess h hexp
    rw [hcl, assocLookup_filter _ _ _ hnd, h]
    show (if decide (¬ st.ttl < now - (sid, sess).2.last_accessed) = true
        then some sess else none) = none
    rw [if_neg]
    simp only [decide_eq_true_eq, Decidable.not_not]
    exact hexp
  refine ⟨?_, ?_, ?_, rfl, rfl, rfl, ?_⟩
  · intro sid sess h
    rw [hcl, assocLookup_filter _ _ _ hnd, h]
    show (if decide (¬ st.ttl < now - (sid, sess).2.last_accessed) = true
        then some sess else none) = _
    by_cases hexp : st.ttl < now - sess.last_accessed
    · rw [if_neg (by simp only [decide_eq_true_eq, Decidable.not_not]; exact hexp),
        if_pos hexp]
    · rw [if_pos (by simp only [decide_eq_true_eq]; exact hexp), if_neg hexp]
  · intro sid h
    rw [hcl, assocLookup_filter _ _ _ hnd, h]
  · have hpart := List.length_eq_length_filter_add
      (l := st.sessions) (fun p => decide (st.ttl < now - p.2.last_accessed))
    have hsame : st.sessions.filter
        (fun p => !(decide (st.ttl < now - p.2.last_accessed)))
        = st.sessions.filter (fun p => ¬ st.ttl < now - p.2.last_accessed) := by
      apply List.filter_congr
      intro x _
      rw [decide_not]
    show (st.sessions.filter fun p => decide (st.ttl < now - p.2.last_accessed)).length
        + (st.sessions.filter fun p => ¬ st.ttl < now - p.2.last_accessed).length
      = st.sessions.length
    rw [← hsame]
    omega
  · intro sid sess now2 fresh hsid hfr h hexp
    rw [get_or_create, if_neg hsid, hnone sid sess h hexp, createNewSession]
    refine ⟨rfl, rfl, assocLookup_assocSet_self _ _ _, ?_⟩
    show assocLookup (assocSet (cleanup_expired st now).2.sessions fresh ⟨[], now2, now2⟩)
        sid = none
    rw [assocLookup_assocSet_ne _ _ _ _ (fun he => hfr he.symm)]
    exact hnone sid sess h hexp

/-- Witness for C6 at `now = 100`: the idle-for-100 session goes away, the
idle-for-10 one survives, the count is 1, and `get_or_create("old")` then
hands out the fresh id with an empty history while `"old"` stays gone. -/
theorem claim_C6_cleanup_expired_witness :
    assocLookup (cleanup_expired c6Store 100).2.sessions "old" = none
    ∧ assocLookup (cleanup_expired c6Store 100).2.sessions "new" = some ⟨[], 90, 90⟩
    ∧ (cleanup_expired c6Store 100).1 + (cleanup_expired c6Store 100).2.sessions.length = 2
    ∧ (get_or_create (cleanup_expired c6Store 100).2 (some "old") 101 "fresh-id").1
        = "fresh-id"
    ∧ (get_or_create (cleanup_expired c6Store 100).2 (some "old") 101 "fresh-id").2.1 = []
    ∧ assocLookup
        (get_or_create (cleanup_expired c6Store 100).2 (some "old") 101 "fresh-id").2.2.sessions
        "old" = none := by
  have h := claim_C6_cleanup_expired c6Store 100 (by decide)
  have h1 := h.1 "old" ⟨[], 0, 0⟩ (by decide)
  have h2 := h.1 "new" ⟨[], 90, 90⟩ (by decide)
  have h7 := h.2.2.2.2.2.2 "old" ⟨[], 0, 0⟩ 101 "fresh-id" (by decide) (by decide)
    (by decide) (by decide)
  refine ⟨by rw [h1]; decide, by rw [h2]; decide, ?_, h7.1, h7.2.1, h7.2.2.2⟩
  rw [h.2.2.1]
  decide

/-- Writing a message record through a shared address is observed in the
rendered history of any session referencing that address. -/
theorem sessionHistory_heapWrite (st : StoreState) (sid : String)
    (sess : ConversationSession) (a : Nat) (m : Msg)
    (h : assocLookup st.sessions sid = some sess) (ha : a < st.heap.length) :
    sessionHistory (heapWrite st a m) sid
      = some (sess.messages.map fun r => if r = a then m else st.heap.getD r ⟨[], []⟩) := by
  have hs : (heapWrite st a m).sessions = st.sessions := rfl
  rw [sessionHistory, hs, h]
  show some (renderHistory (heapWrite st a m) sess.messages) = _
  congr 1
  rw [renderHistory]
  apply List.map_congr_left
  intro r _
  show (st.heap.set a m).getD r ⟨[], []⟩ = _
  by_cases hra : r = a
  · rw [if_pos hra, hra, List.getD_eq_getElem?_getD, List.getElem?_set_self ha]
    rfl
  · rw [if_neg hra, List.getD_eq_getElem?_getD,
      List.getElem?_set_ne (fun he => hra he.symm), ← List.getD_eq_getElem?_getD]

/-- Claim C4 (amended): `get_or_create` on a known id returns the id, a
value-copy of the session's message reference list (so list-level changes
by the caller cannot reach the store, whose own entry still carries its
reference list, merely with a refreshed `last_accessed`), with the heap
untouched — but the message records themselves are shared: a caller write
through any returned reference is observed in the store's history at every
position holding that reference. -/
theorem claim_C4_get_or_create_shallow_copy (st : StoreState) (sid : String)
    (sess : ConversationSession) (now : Int) (fresh : String)
    (hsid : sid ≠ "") (h : assocLookup st.sessions sid = some sess) :
    (get_or_create st (some sid) now fresh).1 = sid
    ∧ (get_or_create st (some sid) now fresh).2.1 = sess.messages
    ∧ (get_or_create st (some sid) now fresh).2.2.heap = st.heap
    ∧ assocLookup (get_or_create st (some sid) now fresh).2.2.sessions sid
        = some { sess with last_accessed := now }
    ∧ (∀ a m, a ∈ sess.messages → a < st.heap.length →
        sessionHistory (heapWrite (get_or_create st (some sid) now fresh).2.2 a m) sid
          = some (sess.messages.map fun r =>
              if r = a then m else st.heap.getD r ⟨[], []⟩)) := by
  have hco : get_or_create st (some sid) now fresh
      = (sid, sess.messages,
          { st with sessions := assocSet st.sessions sid { sess with last_accessed := now } }) := by
    rw [get_or_create, if_neg hsid, h]
  rw [hco]
  refine ⟨rfl, rfl, rfl, assocLookup_assocSet_self _ _ _, ?_⟩
  intro a m _ halen
  exact sessionHistory_heapWrite _ sid { sess with last_accessed := now } a m
    (assocLookup_assocSet_self _ _ _) halen

/-- Counterexample to C4 as stated: `get_or_create` hands back the
reference list `[0]`; the caller's in-place mutation of that message
record (`history[0]["content"] = "evil"`, i.e. a heap write at the shared
address 0) is observed in the store's own session state, so the returned
value is not mutation-isolated. -/
theorem claim_C4_counterexample :
    (get_or_create c4Store (some "sid") 2 "x").2.1 = [0]
    ∧ sessionHistory (get_or_create c4Store (some "sid") 2 "x").2.2 "sid"
        = some [⟨"user".toList, "hi".toList⟩]
    ∧ sessionHistory
        (heapWrite (get_or_create c4Store (some "sid") 2 "x").2.2 0
          ⟨"user".toList, "evil".toList⟩) "sid"
        = some [⟨"user".toList, "evil".toList⟩]
    ∧ some [Msg.mk "user".toList "evil".toList] ≠ some [Msg.mk "user".toList "hi".toList] := by
  refine ⟨by decide, by decide, by decide, by decide⟩

/-- Witness for the amended C4 on the concrete store: the returned copy
equals `[0]`, and writing the shared record through it updates the
observable history. -/
theorem claim_C4_get_or_create_shallow_copy_witness :
    (get_or_create c4Store (some "sid") 2 "x").1 = "sid"
    ∧ (get_or_create c4Store (some "sid") 2 "x").2.1 = [0]
    ∧ sessionHistory
        (heapWrite (get_or_create c4Store (some "sid") 2 "x").2.2 0
          ⟨"user".toList, "bye".toList⟩) "sid"
        = some [⟨"user".toList, "bye".toList⟩] := by
  have h := claim_C4_get_or_create_shallow_copy c4Store "sid" ⟨[0], 0, 1⟩ 2 "x"
    (by decide) (by decide)
  refine ⟨h.1, h.2.1, ?_⟩
  rw [h.2.2.2.2 0 ⟨"user".toList, "bye".toList⟩ (by decide) (by decide)]
  decide

/-- Witness for C7: adding to an id the store never issued leaves a
concrete store untouched. -/
theorem claim_C7_add_message_unknown_noop_witness :
    add_message c7Store "b" "user".toList "again".toList 5 = c7Store :=
  claim_C7_add_message_unknown_noop _ "b" _ _ 5 (by decide)

/-- Counterexample to C8 as stated: on a 210-character input with no tag,
the extractor raises `MissingTagError`, and the raised error object
carries the whole 210-character text in its `response_preview` attribute —
not only the ≤203-character bounded preview embedded in the message. -/
theorem claim_C8_counterexample :
    parse_xml_content c8LongResponse "question".toList
      = Except.error (PyErr.missingTag (mkMissingTagError "question".toList c8LongResponse))
    ∧ (mkMissingTagError "question".toList c8LongResponse).response_preview = c8LongResponse
    ∧ 203 < c8LongResponse.length := by
  refine ⟨rfl, rfl, by decide⟩

/-- Claim C8 (amended): the rendered message of `MissingTagError` and
`TruncatedResponseError` embeds only the bounded preview — the first 200
characters plus an ellipsis, never more than 203 characters, and the whole
text exactly when it is short — but the exception's `response_preview`
attribute retains the full unbounded text. -/
theorem claim_C8_bounded_preview (tag r : List Char) :
    (boundedPreview r).length ≤ 203
    ∧ (r.length ≤ 200 → boundedPreview r = r)
    ∧ (200 < r.length → boundedPreview r = r.take 200 ++ "...".toList)
    ∧ (mkMissingTagError tag r).message
        = "No <".toList ++ tag ++ "> tag found in response. Response preview: ".toList
          ++ boundedPreview r
    ∧ (mkMissingTagError tag r).response_preview = r
    ∧ (mkTruncatedResponseError tag r).message
        = "Response appears truncated - found <".toList ++ tag ++ "> but no </".toList
          ++ tag ++ ">. Response preview: ".toList ++ boundedPreview r
    ∧ (mkTruncatedResponseError tag r).response_preview = r := by
  refine ⟨?_, ?_, ?_, rfl, rfl, rfl, rfl⟩
  · rw [boundedPreview]
    split
    · rw [List.length_append, List.length_take]
      have : "...".toList.length = 3 := by decide
      omega
    · omega
  · intro h
    rw [boundedPreview, if_neg (by omega)]
  · intro h
    rw [boundedPreview, if_pos h]

/-- Witness for the amended C8: on a concrete 210-character input, the
message of the missing-tag error embeds the 203-character preview while
the `response_preview` attribute keeps all 210 characters. -/
theorem claim_C8_bounded_preview_witness :
    (boundedPreview c8LongResponse).length ≤ 203
    ∧ boundedPreview c8LongResponse = List.replicate 200 'a' ++ "...".toList
    ∧ (mkMissingTagError "q".toList c8LongResponse).response_preview = c8LongResponse := by
  have h := claim_C8_bounded_preview "q".toList c8LongResponse
  refine ⟨h.1, ?_, h.2.2.2.2.1⟩
  rw [h.2.2.1 (by decide)]
  decide

theorem parse_xml_content_found {response tag : List Char} {i j : Nat}
    (hf : strFind response (openTagOf tag) = some i)
    (hg : strFindFrom response (closeTagOf tag) (i + (openTagOf tag).length) = some j) :
    parse_xml_content response tag
      = Except.ok (pyStrip (pySlice response (i + (openTagOf tag).length) j)) := by
  simp only [parse_xml_content, extract_tag_bounds, hf, hg]

theorem parse_xml_content_missing {response tag : List Char}
    (hf : strFind response (openTagOf tag) = none) :
    parse_xml_content response tag
      = Except.error (PyErr.missingTag (mkMissingTagError tag response)) := by
  simp only [parse_xml_content, extract_tag_bounds, hf]

theorem parse_xml_content_truncated {response tag : List Char} {i : Nat}
    (hf : strFind response (openTagOf tag) = some i)
    (hg : strFindFrom response (closeTagOf tag) (i + (openTagOf tag).length) = none) :
    parse_xml_content response tag
      = Except.error (PyErr.truncated (mkTruncatedResponseError tag response)) := by
  simp only [parse_xml_content, extract_tag_bounds, hf, hg]

theorem parse_ok_of_hasCompleteTag {response tag : List Char}
    (h : hasCompleteTag response tag = true) :
    ∃ c, parse_xml_content response tag = Except.ok c := by
  cases hf : strFind response (openTagOf tag) with
  | none =>
    rw [hasCompleteTag, hf] at h
    simp at h
  | some i =>
    rw [hasCompleteTag, hf] at h
    have h' : (strFindFrom response (closeTagOf tag) (i + (openTagOf tag).length)).isSome
        = true := h
    cases hg : strFindFrom response (closeTagOf tag) (i + (openTagOf tag).length) with
    | none => rw [hg] at h'; simp at h'
    | some j => exact ⟨_, parse_xml_content_found hf hg⟩

theorem pyContains_of_hasCompleteTag {response tag : List Char}
    (h : hasCompleteTag response tag = true) :
    pyContains response (openTagOf tag) = true := by
  cases hf : strFind response (openTagOf tag) with
  | none =>
    rw [hasCompleteTag, hf] at h
    simp at h
  | some i =>
    rw [pyContains, hf]
    rfl

/-- Claim C2: the `question` tag wins every tie.  Whenever a response
holds a complete question block, the onboarding interpreter — even in the
presence of a complete `canvas_config` block — and the style interpreter —
even in the presence of a complete `style_update` block — both return the
question variant carrying the question's inner text, never the
config/update variant. -/
theorem claim_C2_question_tiebreak (response : List Char) :
    (hasCompleteTag response "question".toList = true →
      hasCompleteTag response "canvas_config".toList = true →
      ∃ content, parse_xml_content response "question".toList = Except.ok content
        ∧ parse_onboard_response response
            = Except.ok [("type".toList, Json.str "question".toList),
                ("content".toList, Json.str content)])
    ∧ (hasCompleteTag response "question".toList = true →
      hasCompleteTag response "style_update".toList = true →
      ∃ content, parse_xml_content response "question".toList = Except.ok content
        ∧ parse_style_response response
            = Except.ok [("type".toList, Json.str "question".toList),
                ("explanation".toList, Json.str content)]) := by
  constructor
  · intro hq _
    obtain ⟨c, hcq⟩ := parse_ok_of_hasCompleteTag hq
    refine ⟨c, hcq, ?_⟩
    rw [parse_onboard_response, if_pos (pyContains_of_hasCompleteTag hq), hcq]
  · intro hq _
    obtain ⟨c, hcq⟩ := parse_ok_of_hasCompleteTag hq
    refine ⟨c, hcq, ?_⟩
    rw [parse_style_response, if_pos (pyContains_of_hasCompleteTag hq), hcq]

/-- Witness for C2: a concrete response holding a complete question block
followed by complete `canvas_config` and `style_update` blocks yields the
question variant from both interpreters. -/
theorem claim_C2_question_tiebreak_witness :
    ∃ content,
      parse_xml_content
        "x <question>Which era?</question> <canvas_config>\x7b\x7d</canvas_config> <style_update>\x7b\x7d</style_update>".toList
        "question".toList = Except.ok content
      ∧ parse_onboard_response
          "x <question>Which era?</question> <canvas_config>\x7b\x7d</canvas_config> <style_update>\x7b\x7d</style_update>".toList
          = Except.ok [("type".toList, Json.str "question".toList),
              ("content".toList, Json.str content)] := by
  obtain ⟨c, h1, h2⟩ := (claim_C2_question_tiebreak
    "x <question>Which era?</question> <canvas_config>\x7b\x7d</canvas_config> <style_update>\x7b\x7d</style_update>".toList).1
    (by decide) (by decide)
  exact ⟨c, h1, h2⟩

/-- Claim C10: once the question opening delimiter is present with no
closing delimiter after it, both interpreters commit to the question
branch and raise `TruncatedResponseError` — whatever else (including a
complete `canvas_config` or `style_update` block) the response holds. -/
theorem claim_C10_question_truncation (response : List Char) (i : Nat)
    (hopen : strFind response (openTagOf "question".toList) = some i)
    (hclose : strFindFrom response (closeTagOf "question".toList)
      (i + (openTagOf "question".toList).length) = none) :
    parse_onboard_response response
      = Except.error (PyErr.truncated (mkTruncatedResponseError "question".toList response))
    ∧ parse_style_response response
      = Except.error (PyErr.truncated (mkTruncatedResponseError "question".toList response)) := by
  have hcont : pyContains response (openTagOf "question".toList) = true := by
    rw [pyContains, hopen]
    rfl
  have hparse : parse_xml_content response "question".toList
      = Except.error (PyErr.truncated (mkTruncatedResponseError "question".toList response)) :=
    parse_xml_content_truncated hopen hclose
  constructor
  · rw [parse_onboard_response, if_pos hcont, hparse]
  · rw [parse_style_response, if_pos hcont, hparse]

/-- Witness for C10: a concrete response with an unclosed question tag and
complete, well-formed `canvas_config` and `style_update` blocks still
fails with `TruncatedResponseError` in both interpreters. -/
theorem claim_C10_question_truncation_witness :
    parse_onboard_response
      "<question>cut off <canvas_config>\x7b\x7d</canvas_config> <style_update>\x7b\x7d</style_update>".toList
      = Except.error (PyErr.truncated (mkTruncatedResponseError "question".toList
          "<question>cut off <canvas_config>\x7b\x7d</canvas_config> <style_update>\x7b\x7d</style_update>".toList))
    ∧ parse_style_response
        "<question>cut off <canvas_config>\x7b\x7d</canvas_config> <style_update>\x7b\x7d</style_update>".toList
        = Except.error (PyErr.truncated (mkTruncatedResponseError "question".toList
            "<question>cut off <canvas_config>\x7b\x7d</canvas_config> <style_update>\x7b\x7d</style_update>".toList)) :=
  claim_C10_question_truncation _ 0 (by decide) (by decide)

theorem dictGet_foldl_acc (ys : List (List Char × Json)) (k : List Char)
    (acc : Option Json) :
    ys.foldl (fun acc p => if p.1 = k then some p.2 else acc) acc
      = match dictGet ys k with
        | some v => some v
        | none => acc := by
  induction ys generalizing acc with
  | nil => rfl
  | cons p t ih =>
    rw [dictGet, List.foldl_cons, List.foldl_cons, ih, ih]
    by_cases h : p.1 = k
    · rw [if_pos h, if_pos h]
      cases dictGet t k <;> rfl
    · rw [if_neg h, if_neg h]
      cases dictGet t k <;> rfl

theorem dictGet_cons (p : List Char × Json) (t : List (List Char × Json)) (k : List Char) :
    dictGet (p :: t) k
      = match dictGet t k with
        | some v => some v
        | none => if p.1 = k then some p.2 else none := by
  rw [dictGet, List.foldl_cons, dictGet_foldl_acc]

theorem dictGet_append (xs ys : List (List Char × Json)) (k : List Char) :
    dictGet (xs ++ ys) k
      = match dictGet ys k with
        | some v => some v
        | none => dictGet xs k := by
  rw [dictGet, List.foldl_append, dictGet_foldl_acc]
  cases dictGet ys k <;> rfl

theorem any_eq_isSome_dictGet (kvs : List (List Char × Json)) (k : List Char) :
    (kvs.any fun p => decide (p.1 = k)) = (dictGet kvs k).isSome := by
  induction kvs with
  | nil => rfl
  | cons p t ih =>
    rw [List.any_cons, ih, dictGet_cons]
    cases h : dictGet t k with
    | some v => simp
    | none =>
      by_cases hp : p.1 = k
      · simp [hp]
      · simp [hp]

/-- One flattening step on a decoded JSON object: append the target entry
exactly when the source key is present, carrying its (last-bound)
value. -/
theorem appendIfKey_obj (acc : List (List Char × Json)) (src dst : List Char)
    (kvs : List (List Char × Json)) :
    appendIfKey acc src dst (Json.obj kvs)
      = Except.ok (acc ++ (match dictGet kvs src with
          | some v => [(dst, v)]
          | none => [])) := by
  cases h : dictGet kvs src with
  | some v =>
    have hany : (kvs.any fun p => decide (p.1 = src)) = true := by
      rw [any_eq_isSome_dictGet, h]
      rfl
    simp only [appendIfKey, pyInJson, hany, pyGetJson, h]
  | none =>
    have hany : (kvs.any fun p => decide (p.1 = src)) = false := by
      rw [any_eq_isSome_dictGet, h]
      rfl
    simp only [appendIfKey, pyInJson, hany, List.append_nil]

theorem styleLift_obj (kvs : List (List Char × Json)) :
    styleLift (Json.obj kvs) = Except.ok (styleOut kvs) := by
  simp only [styleLift, appendIfKey_obj, styleOut]

theorem dictGet_opt_entry (k key : List Char) (o : Option Json) (hne : key ≠ k) :
    dictGet (match o with | some v => [(key, v)] | none => []) k = none := by
  cases o with
  | some v =>
    show (if key = k then some v else none) = none
    rw [if_neg hne]
  | none => rfl

theorem dictGet_opt_entry_self (k : List Char) (o : Option Json) :
    dictGet (match o with | some v => [(k, v)] | none => []) k = o := by
  cases o with
  | some v =>
    show (if k = k then some v else none) = some v
    rw [if_pos rfl]
  | none => rfl

theorem dictGet_append_none_right (xs ys : List (List Char × Json)) (k : List Char)
    (h : dictGet ys k = none) : dictGet (xs ++ ys) k = dictGet xs k := by
  rw [dictGet_append, h]

theorem styleOut_type (kvs : List (List Char × Json)) :
    dictGet (styleOut kvs) "type".toList = some (Json.str "update".toList) := by
  rw [styleOut,
    dictGet_append_none_right _ _ _ (dictGet_opt_entry _ _ _ (by decide)),
    dictGet_append_none_right _ _ _ (dictGet_opt_entry _ _ _ (by decide)),
    dictGet_append_none_right _ _ _ (dictGet_opt_entry _ _ _ (by decide)),
    dictGet_append_none_right _ _ _ (dictGet_opt_entry _ _ _ (by decide))]
  rfl

theorem styleOut_card_theme (kvs : List (List Char × Json)) :
    dictGet (styleOut kvs) "card_theme".toList = dictGet kvs "cardTheme".toList := by
  rw [styleOut,
    dictGet_append_none_right _ _ _ (dictGet_opt_entry _ _ _ (by decide)),
    dictGet_append_none_right _ _ _ (dictGet_opt_entry _ _ _ (by decide)),
    dictGet_append_none_right _ _ _ (dictGet_opt_entry _ _ _ (by decide)),
    dictGet_append, dictGet_opt_entry_self]
  cases h : dictGet kvs "cardTheme".toList <;> rfl

theorem styleOut_canvas_theme (kvs : List (List Char × Json)) :
    dictGet (styleOut kvs) "canvas_theme".toList = dictGet kvs "canvasTheme".toList := by
  rw [styleOut,
    dictGet_append_none_right _ _ _ (dictGet_opt_entry _ _ _ (by decide)),
    dictGet_append_none_right _ _ _ (dictGet_opt_entry _ _ _ (by decide)),
    dictGet_append, dictGet_opt_entry_self]
  cases h : dictGet kvs "canvasTheme".toList with
  | some v => rfl
  | none =>
    rw [dictGet_append_none_right _ _ _ (dictGet_opt_entry _ _ _ (by decide))]
    rfl

theorem styleOut_physics (kvs : List (List Char × Json)) :
    dictGet (styleOut kvs) "physics".toList = dictGet kvs "physics".toList := by
  rw [styleOut,
    dictGet_append_none_right _ _ _ (dictGet_opt_entry _ _ _ (by decide)),
    dictGet_append, dictGet_opt_entry_self]
  cases h : dictGet kvs "physics".toList with
  | some v => rfl
  | none =>
    rw [dictGet_append_none_right _ _ _ (dictGet_opt_entry _ _ _ (by decide)),
      dictGet_append_none_right _ _ _ (dictGet_opt_entry _ _ _ (by decide))]
    rfl

theorem styleOut_explanation (kvs : List (List Char × Json)) :
    dictGet (styleOut kvs) "explanation".toList = dictGet kvs "explanation".toList := by
  rw [styleOut, dictGet_append, dictGet_opt_entry_self]
  cases h : dictGet kvs "explanation".toList with
  | some v => rfl
  | none =>
    rw [dictGet_append_none_right _ _ _ (dictGet_opt_entry _ _ _ (by decide)),
      dictGet_append_none_right _ _ _ (dictGet_opt_entry _ _ _ (by decide)),
      dictGet_append_none_right _ _ _ (dictGet_opt_entry _ _ _ (by decide))]
    rfl

theorem styleOut_other (kvs : List (List Char × Json)) (k : List Char)
    (h1 : k ≠ "type".toList) (h2 : k ≠ "card_theme".toList)
    (h3 : k ≠ "canvas_theme".toList) (h4 : k ≠ "physics".toList)
    (h5 : k ≠ "explanation".toList) :
    dictGet (styleOut kvs) k = none := by
  rw [styleOut,
    dictGet_append_none_right _ _ _ (dictGet_opt_entry _ _ _ (fun he => h5 he.symm)),
    dictGet_append_none_right _ _ _ (dictGet_opt_entry _ _ _ (fun he => h4 he.symm)),
    dictGet_append_none_right _ _ _ (dictGet_opt_entry _ _ _ (fun he => h3 he.symm)),
    dictGet_append_none_right _ _ _ (dictGet_opt_entry _ _ _ (fun he => h2 he.symm))]
  show (if "type".toList = k then some (Json.str "update".toList) else none) = none
  rw [if_neg (fun he => h1 he.symm)]

theorem pyContains_open_of_parse_ok {response tag c : List Char}
    (h : parse_xml_content response tag = Except.ok c) :
    pyContains response (openTagOf tag) = true := by
  cases hf : strFind response (openTagOf tag) with
  | none =>
    rw [parse_xml_content_missing hf] at h
    exact Except.noConfusion h
  | some i =>
    rw [pyContains, hf]
    rfl

/-- Claim C9 (amended): for every response that does not contain the
`<question>` opening delimiter and whose complete `<style_update>` body
decodes as a JSON object, the style interpreter returns an update dict
holding the variant marker and exactly those of the four known keys
(`cardTheme` lifted as `card_theme`, `canvasTheme` as `canvas_theme`,
`physics`, `explanation`) present in the decoded object, with their
decoded values; all other keys of the JSON are dropped and keys absent
from the JSON are absent from the output. -/
theorem claim_C9_style_update_lifting (response body : List Char)
    (kvs : List (List Char × Json))
    (hnq : pyContains response (openTagOf "question".toList) = false)
    (hok : parse_xml_content response "style_update".toList = Except.ok body)
    (hjson : json_loads body = some (Json.obj kvs)) :
    parse_style_response response = Except.ok (styleOut kvs)
    ∧ dictGet (styleOut kvs) "type".toList = some (Json.str "update".toList)
    ∧ dictGet (styleOut kvs) "card_theme".toList = dictGet kvs "cardTheme".toList
    ∧ dictGet (styleOut kvs) "canvas_theme".toList = dictGet kvs "canvasTheme".toList
    ∧ dictGet (styleOut kvs) "physics".toList = dictGet kvs "physics".toList
    ∧ dictGet (styleOut kvs) "explanation".toList = dictGet kvs "explanation".toList
    ∧ (∀ k, k ≠ "type".toList → k ≠ "card_theme".toList → k ≠ "canvas_theme".toList →
        k ≠ "physics".toList → k ≠ "explanation".toList →
        dictGet (styleOut kvs) k = none) := by
  refine ⟨?_, styleOut_type kvs, styleOut_card_theme kvs, styleOut_canvas_theme kvs,
    styleOut_physics kvs, styleOut_explanation kvs, fun k => styleOut_other kvs k⟩
  rw [parse_style_response, if_neg (by rw [hnq]; exact Bool.false_ne_true),
    if_pos (pyContains_open_of_parse_ok hok)]
  simp only [hok, hjson, styleLift_obj]

/-- Counterexample to C9 as stated: `c9Resp` contains a complete
`<style_update>` block whose body decodes as a JSON object with a
`physics` key, yet the style interpreter returns the question variant —
its output carries `"type": "question"` and no `physics` key at all,
because the `question` tag is checked first. -/
theorem claim_C9_counterexample :
    hasCompleteTag c9Resp "style_update".toList = true
    ∧ parse_xml_content c9Resp "style_update".toList = Except.ok c9Body
    ∧ json_loads c9Body
        = some (Json.obj [("physics".toList,
            Json.obj [("bounce".toList, Json.num "0.8".toList)])])
    ∧ parse_style_response c9Resp
        = Except.ok [("type".toList, Json.str "question".toList),
            ("explanation".toList, Json.str "q".toList)]
    ∧ dictGet [("type".toList, Json.str "question".toList),
        ("explanation".toList, Json.str "q".toList)] "physics".toList = none := by
  exact ⟨by decide, rfl, rfl, rfl, rfl⟩

/-- Witness for the amended C9 on the spec's scenario B: the update dict
carries exactly the marker, `physics` and `explanation`, and no
`card_theme`/`canvas_theme` keys. -/
theorem claim_C9_style_update_lifting_witness :
    parse_style_response c9WitnessResp = Except.ok (styleOut c9WitnessKvs)
    ∧ styleOut c9WitnessKvs
        = [("type".toList, Json.str "update".toList),
            ("physics".toList, Json.obj [("bounce".toList, Json.num "0.8".toList)]),
            ("explanation".toList, Json.str "bouncier".toList)]
    ∧ dictGet (styleOut c9WitnessKvs) "card_theme".toList = none
    ∧ dictGet (styleOut c9WitnessKvs) "canvas_theme".toList = none := by
  have h := claim_C9_style_update_lifting c9WitnessResp c9WitnessBody c9WitnessKvs
    rfl rfl rfl
  refine ⟨h.1, by rfl, ?_, ?_⟩
  · rw [h.2.2.1]
    rfl
  · rw [h.2.2.2.1]
    rfl

/-! ### First-occurrence theory of `str.find`, for the extractor claims -/

theorem strFind_eq_some_iff {h n : List Char} {i : Nat} :
    strFind h n = some i ↔ (n <+: h.drop i ∧ ∀ j, j < i → ¬ n <+: h.drop j) := by
  induction h generalizing i with
  | nil =>
    rw [strFind]
    by_cases hp : n.isPrefixOf ([] : List Char) = true
    · rw [if_pos hp]
      have hn : n <+: [] := List.isPrefixOf_iff_prefix.mp hp
      constructor
      · intro he
        injection he with hi
        subst hi
        exact ⟨hn, fun j hj => absurd hj (Nat.not_lt_zero j)⟩
      · rintro ⟨hpre, hmin⟩
        cases i with
        | zero => rfl
        | succ i => exact absurd hn (hmin 0 (Nat.succ_pos i))
    · rw [if_neg hp]
      constructor
      · intro he
        exact Option.noConfusion he
      · rintro ⟨hpre, -⟩
        rw [List.drop_nil] at hpre
        exact absurd (List.isPrefixOf_iff_prefix.mpr hpre) hp
  | cons a t ih =>
    rw [strFind]
    by_cases hp : n.isPrefixOf (a :: t) = true
    · rw [if_pos hp]
      have hpre := List.isPrefixOf_iff_prefix.mp hp
      constructor
      · intro he
        injection he with hi
        subst hi
        exact ⟨hpre, fun j hj => absurd hj (Nat.not_lt_zero j)⟩
      · rintro ⟨h1, hmin⟩
        cases i with
        | zero => rfl
        | succ i => exact absurd hpre (hmin 0 (Nat.succ_pos i))
    · rw [if_neg hp]
      have hnpre : ¬ n <+: (a :: t) := fun hc => hp (List.isPrefixOf_iff_prefix.mpr hc)
      cases i with
      | zero =>
        constructor
        · intro he
          rcases Option.map_eq_some'.mp he with ⟨x, -, hx⟩
          exact absurd hx (by omega)
        · rintro ⟨h1, -⟩
          exact absurd h1 hnpre
      | succ i =>
        constructor
        · intro he
          rcases Option.map_eq_some'.mp he with ⟨x, hx, hxi⟩
          have hxe : x = i := by omega
          subst hxe
          rcases ih.mp hx with ⟨h1, h2⟩
          refine ⟨h1, ?_⟩
          intro j hj
          cases j with
          | zero => exact hnpre
          | succ j => exact h2 j (by omega)
        · rintro ⟨h1, h2⟩
          have hx : strFind t n = some i := ih.mpr ⟨h1, fun j hj => h2 (j + 1) (by omega)⟩
          rw [hx]
          rfl

theorem strFind_eq_none_iff {h n : List Char} :
    strFind h n = none ↔ ∀ j, ¬ n <+: h.drop j := by
  cases hf : strFind h n with
  | some i =>
    constructor
    · intro he
      exact Option.noConfusion he
    · intro hr
      exact absurd (strFind_eq_some_iff.mp hf).1 (hr i)
  | none =>
    constructor
    · intro _ j hc
      have hex : ∃ j, n <+: h.drop j := ⟨j, hc⟩
      have hfound := strFind_eq_some_iff.mpr
        ⟨Nat.find_spec hex, fun k hk => Nat.find_min hex hk⟩
      rw [hf] at hfound
      exact Option.noConfusion hfound
    · intro _
      rfl

theorem infix_iff_prefix_drop {n h : List Char} :
    n <:+: h ↔ ∃ j, n <+: h.drop j := by
  constructor
  · rintro ⟨s, t, hst⟩
    refine ⟨s.length, ?_⟩
    rw [← hst, List.append_assoc, List.drop_left]
    exact List.prefix_append n t
  · rintro ⟨j, hj⟩
    exact (hj.isInfix).trans (List.drop_suffix j h).isInfix

theorem prefix_append_char {n a b : List Char} {ch : Char} (h : n <+: a ++ ch :: b) :
    n <+: a ∨ ch ∈ n := by
  induction a generalizing n with
  | nil =>
    cases n with
    | nil => exact Or.inl List.nil_prefix
    | cons x t =>
      rcases List.cons_prefix_cons.mp h with ⟨rfl, -⟩
      exact Or.inr (List.mem_cons_self _ _)
  | cons y a ih =>
    cases n with
    | nil => exact Or.inl List.nil_prefix
    | cons x t =>
      rcases List.cons_prefix_cons.mp h with ⟨rfl, ht⟩
      rcases ih ht with h1 | h1
      · exact Or.inl (List.cons_prefix_cons.mpr ⟨rfl, h1⟩)
      · exact Or.inr (List.mem_cons_of_mem _ h1)

theorem infix_append_char {n a b : List Char} {ch : Char} (h : n <:+: a ++ ch :: b) :
    n <:+: a ∨ n <:+: b ∨ ch ∈ n := by
  induction a generalizing n with
  | nil =>
    rcases List.infix_cons_iff.mp h with h1 | h1
    · rcases prefix_append_char (a := []) h1 with h2 | h2
      · rw [List.prefix_nil] at h2
        exact Or.inl (h2 ▸ List.nil_infix)
      · exact Or.inr (Or.inr h2)
    · exact Or.inr (Or.inl h1)
  | cons y a ih =>
    rcases List.infix_cons_iff.mp h with h1 | h1
    · cases n with
      | nil => exact Or.inl List.nil_infix
      | cons x t =>
        rcases List.cons_prefix_cons.mp h1 with ⟨rfl, ht⟩
        rcases prefix_append_char ht with h2 | h2
        · exact Or.inl (List.IsPrefix.isInfix (List.cons_prefix_cons.mpr ⟨rfl, h2⟩))
        · exact Or.inr (Or.inr (List.mem_cons_of_mem _ h2))
    · rcases ih h1 with h2 | h2 | h2
      · exact Or.inl (List.infix_cons h2)
      · exact Or.inr (Or.inl h2)
      · exact Or.inr (Or.inr h2)

/-- The first occurrence of `n` in `c ++ n ++ rest` is at index
`c.length`, provided `n` does not occur inside `c` and cannot straddle the
boundary (no split of `n` has its left part a suffix of `c` and its right
part a border of `n`). -/
theorem strFind_append_first (c n rest : List Char)
    (h1 : ¬ n <:+: c)
    (hover : ∀ k, 0 < k → k < n.length →
      n.drop k = n.take (n.length - k) → c.drop (c.length - k) = n.take k → False) :
    strFind (c ++ (n ++ rest)) n = some c.length := by
  apply strFind_eq_some_iff.mpr
  constructor
  · rw [List.drop_left]
    exact List.prefix_append n rest
  · intro j hj hc
    rw [List.drop_append_of_le_length (Nat.le_of_lt hj)] at hc
    have hlen : (c.drop j).length = c.length - j := by rw [List.length_drop]
    by_cases hkn : n.length ≤ c.length - j
    · have htake := List.prefix_iff_eq_take.mp hc
      rw [List.take_append_of_le_length (by rw [hlen]; omega)] at htake
      have hpre : n <+: c.drop j := by
        rw [List.prefix_iff_eq_take]
        exact htake
      exact h1 ((hpre.isInfix).trans (List.drop_suffix j c).isInfix)
    · push_neg at hkn
      have htake := List.prefix_iff_eq_take.mp hc
      rw [List.take_append_eq_append_take,
        List.take_of_length_le (by rw [hlen]; omega), hlen,
        List.take_append_of_le_length (by omega)] at htake
      set k := c.length - j with hkdef
      have hk0 : 0 < k := by omega
      have hfact2 : c.drop (c.length - k) = n.take k := by
        have hjk : c.length - k = j := by omega
        rw [hjk]
        have hcg := congrArg (List.take k) htake
        have hdt : (c.drop j).take k = c.drop j := List.take_of_length_le (by rw [hlen])
        rw [List.take_append_of_le_length (by rw [hlen]), hdt] at hcg
        exact hcg.symm
      have hfact1 : n.drop k = n.take (n.length - k) := by
        have hcg := congrArg (List.drop k) htake
        rw [List.drop_left' (by rw [hlen])] at hcg
        exact hcg
      exact hover k hk0 hkn hfact1 hfact2

/-- When the text right before `n` ends in a character `sp` that `n` does
not contain, no occurrence of `n` can straddle the boundary, so the first
occurrence of `n` in `(q ++ [sp]) ++ n ++ rest` is right after the
marker. -/
theorem strFind_marker (q : List Char) (sp : Char) (n rest : List Char)
    (h1 : ¬ n <:+: q ++ [sp]) (hsp : sp ∉ n) :
    strFind ((q ++ [sp]) ++ (n ++ rest)) n = some (q ++ [sp]).length := by
  apply strFind_append_first _ _ _ h1
  intro k hk0 hkn _ hfact2
  have hlq : (q ++ [sp]).length = q.length + 1 := by
    rw [List.length_append, List.length_singleton]
  rw [List.drop_append_of_le_length (by rw [hlq]; omega)] at hfact2
  apply hsp
  apply List.take_subset k n
  rw [← hfact2]
  exact List.mem_append_right _ (List.mem_singleton_self sp)

/-- The closing delimiter `</tag>` has no nonempty proper border when
`tag` does not contain `<`, so its first occurrence in
`c ++ </tag> ++ rest` with `</tag>` not inside `c` is at `c.length`. -/
theorem strFind_close (c tag rest : List Char)
    (h1 : ¬ closeTagOf tag <:+: c) (hlt : '<' ∉ tag) :
    strFind (c ++ (closeTagOf tag ++ rest)) (closeTagOf tag) = some c.length := by
  apply strFind_append_first _ _ _ h1
  intro k hk0 hkn hfact1 _
  obtain ⟨m, hm⟩ : ∃ m, (closeTagOf tag).length - k = m + 1 := ⟨(closeTagOf tag).length - k - 1, by omega⟩
  obtain ⟨k', hk'⟩ : ∃ k', k = k' + 1 := ⟨k - 1, by omega⟩
  rw [hm, hk', closeTagOf, List.take_succ_cons, List.drop_succ_cons] at hfact1
  have hmem : '<' ∈ ('/' :: (tag ++ ['>'])) := by
    apply List.mem_of_mem_drop (n := k')
    rw [hfact1]
    exact List.mem_cons_self _ _
  rcases List.mem_cons.mp hmem with he | he
  · exact absurd he (by decide)
  · rcases List.mem_append.mp he with he2 | he2
    · exact hlt he2
    · exact absurd (List.mem_singleton.mp he2) (by decide)

theorem space_not_mem_openTagOf {tag : List Char} (hsp : ' ' ∉ tag) :
    ' ' ∉ openTagOf tag := by
  rw [openTagOf]
  intro hm
  rcases List.mem_cons.mp hm with he | he
  · exact absurd he (by decide)
  · rcases List.mem_append.mp he with he2 | he2
    · exact hsp he2
    · exact absurd (List.mem_singleton.mp he2) (by decide)

/-- With a space-free tag, the opening delimiter cannot occur anywhere in
`"prefix " ++ s1 ++ " "` unless it occurs in `s1` itself. -/
theorem openTag_not_infix_marker (tag s1 : List Char) (hsp : ' ' ∉ tag)
    (hno : ¬ openTagOf tag <:+: s1) :
    ¬ openTagOf tag <:+: ("prefix ".toList ++ s1) ++ [' '] := by
  intro hc
  have hsp' : ' ' ∉ openTagOf tag := space_not_mem_openTagOf hsp
  have hre : ("prefix ".toList ++ s1) ++ [' ']
      = "prefix".toList ++ (' ' :: (s1 ++ [' '])) := by
    rw [show ("prefix ".toList : List Char) = "prefix".toList ++ [' '] from rfl,
      List.append_assoc, List.append_assoc]
    rfl
  rw [hre] at hc
  rcases infix_append_char hc with h1 | h1 | h1
  · have hin : '<' ∈ "prefix".toList :=
      h1.subset (by rw [openTagOf]; exact List.mem_cons_self _ _)
    exact absurd hin (by decide)
  · rcases infix_append_char (b := []) h1 with h2 | h2 | h2
    · exact hno h2
    · have h3 := List.infix_nil.mp h2
      rw [openTagOf] at h3
      exact List.cons_ne_nil _ _ h3
    · exact hsp' h2
  · exact hsp' h1

/-- Claim C1 (amended): the extractor is a total trichotomy — no opening
delimiter anywhere means `MissingTagError`; an opening delimiter with no
closing delimiter after its end means `TruncatedResponseError`; otherwise
the text strictly between the end of the first opening delimiter and the
first closing delimiter after it is returned, stripped (so any later
duplicate tag occurrences are ignored).  Moreover the extraction
round-trip holds on `"prefix {s1} <tag>{c}</tag> {s2}"` whenever the
surrounding strings `s1`, `s2` do not contain the delimiters, the tag name
contains neither `<` nor a space, and — the amendment — the inner content
`c` does not itself contain the closing delimiter: the extractor then
returns exactly `c.strip()`. -/
theorem claim_C1_extract_trichotomy_roundtrip :
    (∀ response tag : List Char, ¬ openTagOf tag <:+: response →
      parse_xml_content response tag
        = Except.error (PyErr.missingTag (mkMissingTagError tag response)))
    ∧ (∀ (response tag : List Char) (i : Nat),
        strFind response (openTagOf tag) = some i →
        strFindFrom response (closeTagOf tag) (i + (openTagOf tag).length) = none →
        parse_xml_content response tag
          = Except.error (PyErr.truncated (mkTruncatedResponseError tag response)))
    ∧ (∀ (response tag : List Char) (i j : Nat),
        strFind response (openTagOf tag) = some i →
        strFindFrom response (closeTagOf tag) (i + (openTagOf tag).length) = some j →
        parse_xml_content response tag
          = Except.ok (pyStrip (pySlice response (i + (openTagOf tag).length) j)))
    ∧ (∀ tag s1 s2 c : List Char, ' ' ∉ tag → '<' ∉ tag →
        ¬ openTagOf tag <:+: s1 → ¬ closeTagOf tag <:+: s1 →
        ¬ openTagOf tag <:+: s2 → ¬ closeTagOf tag <:+: s2 →
        ¬ closeTagOf tag <:+: c →
        parse_xml_content
          ("prefix ".toList ++ s1 ++ [' '] ++ openTagOf tag ++ c
            ++ closeTagOf tag ++ [' '] ++ s2) tag
          = Except.ok (pyStrip c)) := by
  refine ⟨?_, ?_, ?_, ?_⟩
  · intro response tag h
    apply parse_xml_content_missing
    rw [strFind_eq_none_iff]
    intro j hc
    exact h (infix_iff_prefix_drop.mpr ⟨j, hc⟩)
  · intro response tag i hf hg
    exact parse_xml_content_truncated hf hg
  · intro response tag i j hf hg
    exact parse_xml_content_found hf hg
  · intro tag s1 s2 c hsp hlt hos1 hcs1 _ _ hcc
    have htext : "prefix ".toList ++ s1 ++ [' '] ++ openTagOf tag ++ c
        ++ closeTagOf tag ++ [' '] ++ s2
        = (("prefix ".toList ++ s1) ++ [' '])
          ++ (openTagOf tag ++ (c ++ (closeTagOf tag ++ (' ' :: s2)))) := by
      simp only [List.append_assoc, List.singleton_append, List.cons_append,
        List.nil_append]
    rw [htext]
    have hf : strFind ((("prefix ".toList ++ s1) ++ [' '])
          ++ (openTagOf tag ++ (c ++ (closeTagOf tag ++ (' ' :: s2)))))
          (openTagOf tag)
        = some (("prefix ".toList ++ s1) ++ [' ']).length :=
      strFind_marker ("prefix ".toList ++ s1) ' ' (openTagOf tag)
        (c ++ (closeTagOf tag ++ (' ' :: s2)))
        (openTag_not_infix_marker tag s1 hsp hos1)
        (space_not_mem_openTagOf hsp)
    have hdrop : ((("prefix ".toList ++ s1) ++ [' '])
          ++ (openTagOf tag ++ (c ++ (closeTagOf tag ++ (' ' :: s2))))).drop
          ((("prefix ".toList ++ s1) ++ [' ']).length + (openTagOf tag).length)
        = c ++ (closeTagOf tag ++ (' ' :: s2)) := by
      rw [(List.append_assoc (("prefix ".toList ++ s1) ++ [' ']) (openTagOf tag)
        (c ++ (closeTagOf tag ++ (' ' :: s2)))).symm]
      exact List.drop_left' (by rw [List.length_append])
    have hcf : strFind (c ++ (closeTagOf tag ++ (' ' :: s2))) (closeTagOf tag)
        = some c.length := strFind_close c tag (' ' :: s2) hcc hlt
    have hg : strFindFrom ((("prefix ".toList ++ s1) ++ [' '])
          ++ (openTagOf tag ++ (c ++ (closeTagOf tag ++ (' ' :: s2)))))
          (closeTagOf tag)
          ((("prefix ".toList ++ s1) ++ [' ']).length + (openTagOf tag).length)
        = some (c.length
            + ((("prefix ".toList ++ s1) ++ [' ']).length + (openTagOf tag).length)) := by
      rw [strFindFrom, hdrop, hcf]
      rfl
    rw [parse_xml_content_found hf hg]
    congr 1
    rw [pySlice, hdrop, Nat.add_sub_cancel, List.take_left]

/-- Counterexample to C1 as stated: instantiating the round-trip schema
with `s1 = s2 = ""` and the inner content `c = "a</tag>b"` (legal under
the claim, which allows any inner content), the extractor stops at the
first closing delimiter — which sits inside `c` — and returns `"a"`, not
`c.strip()`. -/
theorem claim_C1_counterexample :
    parse_xml_content ("prefix ".toList ++ "".toList ++ [' '] ++ openTagOf "tag".toList
        ++ "a</tag>b".toList ++ closeTagOf "tag".toList ++ [' '] ++ "".toList) "tag".toList
      = Except.ok "a".toList
    ∧ pyStrip "a</tag>b".toList = "a</tag>b".toList
    ∧ "a".toList ≠ "a</tag>b".toList := by
  exact ⟨rfl, rfl, by decide⟩

/-- Witness for C1: the trichotomy evaluated on concrete inputs (missing
tag, truncated tag) and the round-trip on a concrete schema instance,
returning the stripped inner content. -/
theorem claim_C1_extract_trichotomy_roundtrip_witness :
    parse_xml_content "no tags here".toList "tag".toList
      = Except.error (PyErr.missingTag (mkMissingTagError "tag".toList "no tags here".toList))
    ∧ parse_xml_content "x <tag> cut off".toList "tag".toList
        = Except.error (PyErr.truncated
            (mkTruncatedResponseError "tag".toList "x <tag> cut off".toList))
    ∧ parse_xml_content
        ("prefix ".toList ++ "abc".toList ++ [' '] ++ openTagOf "tag".toList
          ++ " hi there ".toList ++ closeTagOf "tag".toList ++ [' ']
          ++ "junk after".toList) "tag".toList
        = Except.ok (pyStrip " hi there ".toList)
    ∧ pyStrip " hi there ".toList = "hi there".toList := by
  refine ⟨?_, ?_, ?_, by decide⟩
  · exact claim_C1_extract_trichotomy_roundtrip.1 "no tags here".toList "tag".toList
      (by decide)
  · exact claim_C1_extract_trichotomy_roundtrip.2.1 "x <tag> cut off".toList "tag".toList
      2 (by decide) (by decide)
  · exact claim_C1_extract_trichotomy_roundtrip.2.2.2 "tag".toList "abc".toList
      "junk after".toList " hi there ".toList (by decide) (by decide) (by decide)
      (by decide) (by decide) (by decide) (by decide)

end EcommHacks
